import Mathlib

set_option autoImplicit false

/-
Shallow embedding of the write-back persistence layer of poor-man-toolbox
(app/helpers/sqlite.py and the change-detection part of app/helpers/configs.py).
Timestamps are modelled as integers; one unit corresponds to one day, matching
the retention arithmetic of `SQLite.purge` (threshold = now - retention days).
The SQLAlchemy session is modelled by explicit state passing: a `DB` value is
the committed database, and the transaction inside `flushB` builds a candidate
`DB` that replaces the committed one only at the commit step.
-/

namespace PMT

/-- A pending log record as built by `SQLiteHandler.emit`: the column values of
the `logs` table except the store-assigned autoincrement `id`. -/
structure Log where
  module : String
  key : String
  value : String
  created_on : Int
  updated_on : Int
deriving Repr, DecidableEq

/-- A pending settings record: the column values of the `settings` table except
the store-assigned `id`. -/
structure Setting where
  key : String
  value : String
  created_on : Int
  updated_on : Int
deriving Repr, DecidableEq

/-- A committed row of the `logs` table: the record plus the autoincrement
primary key the store assigned at commit time. -/
structure LogRow where
  id : Nat
  module : String
  key : String
  value : String
  created_on : Int
  updated_on : Int
deriving Repr, DecidableEq

/-- A committed row of the `settings` table. -/
structure SettingRow where
  id : Nat
  key : String
  value : String
  created_on : Int
  updated_on : Int
deriving Repr, DecidableEq

/-- An argument to `SQLite.insert` or `SQLite.update`: both are typed `Any` in
the source, and the only mapped record classes are `Log` and `Setting`. -/
inductive Rec where
  | log : Log → Rec
  | setting : Setting → Rec
deriving Repr, DecidableEq

/-- The durable database behind the engine: both tables plus the next
autoincrement id. -/
structure DB where
  logs : List LogRow
  settings : List SettingRow
  nextId : Nat
deriving Repr, DecidableEq

/-- The state of a `SQLite` store instance: the backing database, the two
pending deques (`self.inserts` and `self.updates`), and the configured
`config.logging.retention` in days. -/
structure SQLite where
  db : DB
  inserts : List Rec
  updates : List Rec
  retention : Int
deriving Repr, DecidableEq

/-- The schema constraint on `settings.key` (a unique index): all keys in the
table are pairwise distinct. -/
def uniqueKeys (rows : List SettingRow) : Prop :=
  rows.Pairwise (fun a b => a.key ≠ b.key)

instance uniqueKeysDecidable : (rows : List SettingRow) → Decidable (uniqueKeys rows)
  | [] => isTrue List.Pairwise.nil
  | row :: rest =>
    have ih : Decidable (uniqueKeys rest) := uniqueKeysDecidable rest
    decidable_of_iff ((∀ b ∈ rest, row.key ≠ b.key) ∧ uniqueKeys rest)
      (by
        unfold uniqueKeys
        constructor
        · rintro ⟨h1, h2⟩
          exact List.Pairwise.cons h1 h2
        · intro h
          exact ⟨(List.pairwise_cons.mp h).1, (List.pairwise_cons.mp h).2⟩)

/-- Number of settings rows carrying a given key. -/
def countKey (rows : List SettingRow) (k : String) : Nat :=
  (rows.filter (fun row => row.key == k)).length

namespace SQLite

/-- SQLite.insert: `self.inserts.append(data)`, a pure in-memory append. -/
def insert (s : SQLite) (data : Rec) : SQLite :=
  { s with inserts := s.inserts ++ [data] }

/-- SQLite.update: `self.updates.append(data)`, a pure in-memory append. -/
def update (s : SQLite) (data : Rec) : SQLite :=
  { s with updates := s.updates ++ [data] }

/-- The session-level upsert shared by `SQLite.parse` and `Config.sync`:
`row = session.query(Setting).filter_by(key=...).first()`; when no row
matches, a fresh `Setting(key=..., created_on=now)` is added; then
`row.value = ...` and `row.updated_on = now` on the found or fresh row.
Replacing the first row whose key matches is exactly "first(), then mutate in
place"; reaching the end of the table without a match is exactly the
"not row" branch that adds a fresh row. -/
def upsertSetting (now : Int) (key value : String) (nextId : Nat) :
    List SettingRow → List SettingRow × Nat
  | [] => ([{ id := nextId, key := key, value := value,
              created_on := now, updated_on := now }], nextId + 1)
  | row :: rest =>
    if row.key == key then
      ({ row with value := value, updated_on := now } :: rest, nextId)
    else
      let res := upsertSetting now key value nextId rest
      (row :: res.1, res.2)

/-- SQLite.parse: `isinstance(data, Setting)` guards the whole body, so a
non-`Setting` object leaves the session untouched; a `Setting` is upserted by
key with the current time. -/
def parse (db : DB) (now : Int) (data : Rec) : DB :=
  match data with
  | Rec.log _ => db
  | Rec.setting d =>
    let res := upsertSetting now d.key d.value db.nextId db.settings
    { db with settings := res.1, nextId := res.2 }

/-- One `session.add(obj)` from the insert loop of `flushB`: a new row of the
matching table with the next autoincrement id. -/
def addObj (db : DB) (data : Rec) : DB :=
  match data with
  | Rec.log l =>
    { db with
      logs := db.logs ++ [{ id := db.nextId, module := l.module, key := l.key,
                            value := l.value, created_on := l.created_on,
                            updated_on := l.updated_on }],
      nextId := db.nextId + 1 }
  | Rec.setting d =>
    { db with
      settings := db.settings ++ [{ id := db.nextId, key := d.key,
                                    value := d.value, created_on := d.created_on,
                                    updated_on := d.updated_on }],
      nextId := db.nextId + 1 }

/-- A point inside the `try` block of `flushB` where an exception may be
raised (a constraint violation or an I/O error): at `session.add` of the i-th
snapshot insert, at `self.parse` of the j-th snapshot update, at
`session.commit()`, or at the WAL checkpoint that follows the commit. -/
inductive FailPoint where
  | addInsert : Nat → FailPoint
  | applyUpdate : Nat → FailPoint
  | commit : FailPoint
  | checkpoint : FailPoint
deriving Repr, DecidableEq

/-- The environment of one `flushB` call: which step, if any, raises, and the
records other producers append to each deque while the flush body runs. Each
list of appends is split at the moment the corresponding `clear()` executes,
because `clear()` empties the live deque (everything appended so far), not
the snapshot taken at the start. -/
structure FlushEnv where
  fail : Option FailPoint
  insDuring : List Rec
  insLate : List Rec
  updDuring : List Rec
  updLate : List Rec
deriving Repr, DecidableEq

/-- True when the planned failure strikes inside the insert loop over a
snapshot of the given length. -/
def hitsAdd : Option FailPoint → Nat → Bool
  | some (FailPoint.addInsert i), n => decide (i < n)
  | _, _ => false

/-- True when the planned failure strikes inside the update loop over a
snapshot of the given length. -/
def hitsParse : Option FailPoint → Nat → Bool
  | some (FailPoint.applyUpdate j), n => decide (j < n)
  | _, _ => false

/-- SQLite.flushB. Snapshot both deques and return at once when both are
empty. Otherwise: add every snapshot insert, `self.inserts.clear()`, parse
every snapshot update, `self.updates.clear()`, `session.commit()`, then
checkpoint the WAL. An exception anywhere inside the `try` rolls the
transaction back and is logged, never re-raised; a `clear()` runs only when
reached and empties everything appended to that deque up to that moment.
Every `datetime.now` taken inside the flush is modelled by the single clock
value `now`. Bool result: an exception was caught and logged. -/
def flushB (s : SQLite) (env : FlushEnv) (now : Int) : SQLite × Bool :=
  let inserts := s.inserts
  let updates := s.updates
  if inserts = [] ∧ updates = [] then
    ({ s with inserts := s.inserts ++ env.insDuring ++ env.insLate,
              updates := s.updates ++ env.updDuring ++ env.updLate }, false)
  else if hitsAdd env.fail inserts.length then
    ({ s with inserts := s.inserts ++ env.insDuring ++ env.insLate,
              updates := s.updates ++ env.updDuring ++ env.updLate }, true)
  else
    let db1 := inserts.foldl addObj s.db
    if hitsParse env.fail updates.length then
      ({ s with inserts := env.insLate,
                updates := s.updates ++ env.updDuring ++ env.updLate }, true)
    else
      let db2 := updates.foldl (fun db r => parse db now r) db1
      if env.fail = some FailPoint.commit then
        ({ s with inserts := env.insLate, updates := env.updLate }, true)
      else if env.fail = some FailPoint.checkpoint then
        ({ s with db := db2, inserts := env.insLate, updates := env.updLate }, true)
      else
        ({ s with db := db2, inserts := env.insLate, updates := env.updLate }, false)

/-- A flush during which nothing fails and no other producer enqueues. -/
def quietEnv : FlushEnv :=
  { fail := none, insDuring := [], insLate := [], updDuring := [], updLate := [] }

/-- SQLite.purge: threshold = now minus the retention window; count the log
rows with `updated_on` strictly below the threshold, and only when the count
is positive delete exactly those rows and commit. Bool result: a commit
happened. -/
def purge (s : SQLite) (now : Int) : SQLite × Bool :=
  let threshold := now - s.retention
  let count := (s.db.logs.filter (fun r => decide (r.updated_on < threshold))).length
  if 0 < count then
    ({ s with db := { s.db with
        logs := s.db.logs.filter (fun r => !decide (r.updated_on < threshold)) } },
     true)
  else
    (s, false)

end SQLite

namespace Config

/-- Config.load at the boundary the change detector needs: read the file's raw
bytes (failure returns `None` after printing), feed them to
`hashlib.sha256(...).hexdigest()` — modelled by the digest parameter mapping
the bytes to a hex string — and YAML-parse them; the digest is accumulated
before the parse, but a parse failure still returns `None`. -/
def load (readBytes : Option (List Nat)) (parseOk : Bool)
    (digest : List Nat → String) : Option String :=
  match readBytes with
  | none => none
  | some b => if parseOk then some (digest b) else none

/-- Config.sync: recompute the hash via `load`; a falsy hash (`load` failed, or
the hash is the empty string) returns `None` with no store access. Otherwise
look up the first `config-sha256` row; when it exists with the same value,
return `None` with no mutation and no commit; otherwise upsert that key with
the new hash and the current time, commit synchronously, and return the
time. Result: (returned timestamp, database afterwards, whether a commit
ran). -/
def sync (db : DB) (readBytes : Option (List Nat)) (parseOk : Bool)
    (digest : List Nat → String) (now : Int) : Option Int × DB × Bool :=
  match load readBytes parseOk digest with
  | none => (none, db, false)
  | some sha256 =>
    if sha256 = "" then (none, db, false)
    else
      match db.settings.find? (fun row => row.key == "config-sha256") with
      | some row =>
        if sha256 = row.value then (none, db, false)
        else
          let res :=
            SQLite.upsertSetting now "config-sha256" sha256 db.nextId db.settings
          (some now, { db with settings := res.1, nextId := res.2 }, true)
      | none =>
        let res :=
          SQLite.upsertSetting now "config-sha256" sha256 db.nextId db.settings
        (some now, { db with settings := res.1, nextId := res.2 }, true)

end Config

/-- Python's `str.lower()` on a level name: every character mapped to its
lower-case form (written over the character list so that the kernel can
evaluate it on concrete strings). -/
def lowercase (s : String) : String :=
  String.mk (s.data.map Char.toLower)

/-- One event delivered to `SQLiteHandler.emit`: origin module name, severity
level name, the result of `record.getMessage()` (message formatting can
raise, hence `Except`), and the event's own creation timestamp
`record.created`. -/
structure LogEvent where
  module : String
  levelname : String
  message : Except String String
  created : Int
deriving Repr

namespace SQLiteHandler

/-- SQLiteHandler.emit: derive `now` from the event's creation time, build the
`Log` record (module name, lower-cased level name as key, formatted message
as value, both timestamps set to `now`) and append it with `SQLite.insert`;
a failure while building the record is caught and reported through
`logging.exception` instead of propagating. Bool result: the secondary
channel was used. -/
def emit (s : SQLite) (e : LogEvent) : SQLite × Bool :=
  let now := e.created
  match e.message with
  | Except.ok msg =>
    (SQLite.insert s (Rec.log { module := e.module, key := lowercase e.levelname,
                                value := msg, created_on := now, updated_on := now }),
     false)
  | Except.error _ => (s, true)

end SQLiteHandler

/-- The rows `flushB` appends to the `logs` table for a snapshot of pending
log records: contents in snapshot order, ids consecutive from `start`. -/
def mkLogRows (start : Nat) : List Log → List LogRow
  | [] => []
  | r :: rs =>
    { id := start, module := r.module, key := r.key, value := r.value,
      created_on := r.created_on, updated_on := r.updated_on } :: mkLogRows (start + 1) rs

end PMT

/-
Helper lemmas about the embedding. None of them is named by a claim; the
claim-level theorems below share them.
-/

namespace PMT

lemma foldl_insert_log (s : SQLite) (rs : List Log) :
    rs.foldl (fun t r => SQLite.insert t (Rec.log r)) s =
      { s with inserts := s.inserts ++ rs.map Rec.log } := by
  induction rs generalizing s with
  | nil => simp [SQLite.insert]
  | cons r rs ih =>
    rw [List.foldl_cons, ih]
    simp [SQLite.insert]

lemma foldl_update_setting (s : SQLite) (us : List Setting) :
    us.foldl (fun t u => SQLite.update t (Rec.setting u)) s =
      { s with updates := s.updates ++ us.map Rec.setting } := by
  induction us generalizing s with
  | nil => simp [SQLite.update]
  | cons u us ih =>
    rw [List.foldl_cons, ih]
    simp [SQLite.update]

lemma foldl_addObj_log (db : DB) (rs : List Log) :
    (rs.map Rec.log).foldl SQLite.addObj db =
      { db with logs := db.logs ++ mkLogRows db.nextId rs,
                nextId := db.nextId + rs.length } := by
  induction rs generalizing db with
  | nil => simp [mkLogRows]
  | cons r rs ih =>
    rw [List.map_cons, List.foldl_cons, ih]
    simp only [SQLite.addObj, mkLogRows, List.length_cons, DB.mk.injEq, List.append_assoc,
      List.singleton_append]
    exact ⟨trivial, trivial, by omega⟩

lemma mkLogRows_id_ge (start : Nat) (rs : List Log) :
    ∀ row ∈ mkLogRows start rs, start ≤ row.id := by
  induction rs generalizing start with
  | nil => simp [mkLogRows]
  | cons r rs ih =>
    intro row hrow
    simp only [mkLogRows, List.mem_cons] at hrow
    rcases hrow with h | h
    · simp [h]
    · exact Nat.le_of_succ_le (ih (start + 1) row h)

lemma mkLogRows_pairwise_id (start : Nat) (rs : List Log) :
    (mkLogRows start rs).Pairwise (fun a b => a.id ≠ b.id) := by
  induction rs generalizing start with
  | nil => exact List.Pairwise.nil
  | cons r rs ih =>
    refine List.Pairwise.cons ?_ (ih (start + 1))
    intro b hb
    have := mkLogRows_id_ge (start + 1) rs b hb
    simp only [mkLogRows]
    omega

lemma mkLogRows_content (start : Nat) (rs : List Log) :
    (mkLogRows start rs).map
      (fun row => Log.mk row.module row.key row.value row.created_on row.updated_on) = rs := by
  induction rs generalizing start with
  | nil => simp [mkLogRows]
  | cons r rs ih => simp [mkLogRows, ih]

end PMT

namespace PMT

lemma countKey_zero_iff (rows : List SettingRow) (k : String) :
    countKey rows k = 0 ↔ ∀ r ∈ rows, r.key ≠ k := by
  simp [countKey, List.length_eq_zero, List.filter_eq_nil_iff]

lemma countKey_cons (row : SettingRow) (rest : List SettingRow) (k : String) :
    countKey (row :: rest) k =
      (if row.key = k then 1 else 0) + countKey rest k := by
  by_cases h : row.key = k
  · simp [countKey, List.filter_cons, h, Nat.add_comm]
  · simp [countKey, List.filter_cons, h]

lemma upsert_result (now : Int) (k v : String) (n : Nat) :
    ∀ rows : List SettingRow, countKey rows k ≤ 1 →
      countKey (SQLite.upsertSetting now k v n rows).1 k = 1 ∧
      ∀ r ∈ (SQLite.upsertSetting now k v n rows).1, r.key = k →
        r.value = v ∧ r.updated_on = now := by
  intro rows
  induction rows with
  | nil =>
    intro _
    refine ⟨by simp [SQLite.upsertSetting, countKey], ?_⟩
    intro r hr _
    simp only [SQLite.upsertSetting, List.mem_singleton] at hr
    subst hr
    exact ⟨rfl, rfl⟩
  | cons row rest ih =>
    intro h
    by_cases hk : row.key = k
    · have hzero : countKey rest k = 0 := by
        have := countKey_cons row rest k
        simp [hk] at this
        omega
      have hnone : ∀ r ∈ rest, r.key ≠ k := (countKey_zero_iff rest k).mp hzero
      simp only [SQLite.upsertSetting, beq_iff_eq, hk, if_true]
      constructor
      · rw [countKey_cons]
        simp [hk, hzero]
      · intro r hr _
        rcases List.mem_cons.mp hr with h1 | h1
        · subst h1
          exact ⟨rfl, rfl⟩
        · exact absurd ‹r.key = k› (hnone r h1)
    · have hrest : countKey rest k ≤ 1 := by
        have := countKey_cons row rest k
        simp [hk] at this
        omega
      obtain ⟨ihc, ihv⟩ := ih hrest
      simp only [SQLite.upsertSetting, beq_iff_eq, hk, if_false]
      constructor
      · rw [countKey_cons]
        simp [hk, ihc]
      · intro r hr hkey
        rcases List.mem_cons.mp hr with h1 | h1
        · subst h1
          exact absurd hkey hk
        · exact ihv r h1 hkey

lemma upsert_mem_key (now : Int) (k v : String) (n : Nat) :
    ∀ rows : List SettingRow, ∀ r ∈ (SQLite.upsertSetting now k v n rows).1,
      r.key = k ∨ r.key ∈ rows.map SettingRow.key := by
  intro rows
  induction rows with
  | nil =>
    intro r hr
    simp only [SQLite.upsertSetting, List.mem_singleton] at hr
    subst hr
    exact Or.inl rfl
  | cons row rest ih =>
    intro r hr
    by_cases hk : row.key = k
    · subst hk
      simp only [SQLite.upsertSetting, beq_self_eq_true, if_true] at hr
      rcases List.mem_cons.mp hr with h1 | h1
      · subst h1
        exact Or.inl rfl
      · refine Or.inr ?_
        simp only [List.map_cons, List.mem_cons, List.mem_map]
        exact Or.inr ⟨r, h1, rfl⟩
    · simp only [SQLite.upsertSetting, beq_iff_eq, hk, if_false] at hr
      rcases List.mem_cons.mp hr with h1 | h1
      · subst h1
        exact Or.inr (by simp)
      · rcases ih r h1 with h2 | h2
        · exact Or.inl h2
        · refine Or.inr ?_
          simp only [List.map_cons, List.mem_cons]
          exact Or.inr h2

lemma upsert_unique (now : Int) (k v : String) (n : Nat) :
    ∀ rows : List SettingRow, uniqueKeys rows →
      uniqueKeys (SQLite.upsertSetting now k v n rows).1 := by
  intro rows
  induction rows with
  | nil =>
    intro _
    exact List.pairwise_singleton _ _
  | cons row rest ih =>
    intro h
    obtain ⟨hhead, htail⟩ := List.pairwise_cons.mp h
    by_cases hk : row.key = k
    · subst hk
      simp only [SQLite.upsertSetting, beq_self_eq_true, if_true]
      exact List.Pairwise.cons (fun b hb => hhead b hb) htail
    · simp only [SQLite.upsertSetting, beq_iff_eq, hk, if_false]
      refine List.Pairwise.cons ?_ (ih htail)
      intro b hb
      rcases upsert_mem_key now k v n rest b hb with h1 | h1
      · rw [h1]
        exact hk
      · rcases List.mem_map.mp h1 with ⟨a, ha, hkey⟩
        rw [← hkey]
        exact hhead a ha

lemma upsert_find (now : Int) (k v : String) (n : Nat) :
    ∀ rows : List SettingRow,
      ∃ r, (SQLite.upsertSetting now k v n rows).1.find? (fun row => row.key == k) = some r ∧
        r.key = k ∧ r.value = v ∧ r.updated_on = now := by
  intro rows
  induction rows with
  | nil =>
    exact ⟨{ id := n, key := k, value := v, created_on := now, updated_on := now },
      List.find?_cons_of_pos _ (by simp), rfl, rfl, rfl⟩
  | cons row rest ih =>
    by_cases hk : row.key = k
    · subst hk
      refine ⟨{ row with value := v, updated_on := now }, ?_, rfl, rfl, rfl⟩
      simp only [SQLite.upsertSetting, beq_self_eq_true, if_true]
      exact List.find?_cons_of_pos _ (by simp)
    · obtain ⟨r, hfind, hr⟩ := ih
      refine ⟨r, ?_, hr⟩
      simp only [SQLite.upsertSetting, beq_iff_eq, hk, if_false]
      rw [List.find?_cons_of_neg _ (by simp [hk])]
      exact hfind

end PMT

namespace PMT

lemma flushB_quiet (s : SQLite) (now : Int) :
    SQLite.flushB s SQLite.quietEnv now =
      (if s.inserts = [] ∧ s.updates = [] then (s, false)
       else
        ({ s with
            db := s.updates.foldl (fun db r => SQLite.parse db now r)
              (s.inserts.foldl SQLite.addObj s.db),
            inserts := [],
            updates := [] }, false)) := by
  rcases s with ⟨db, ins, upd, ret⟩
  by_cases h : ins = [] ∧ upd = []
  · simp [SQLite.flushB, SQLite.quietEnv, h, h.1, h.2]
  · simp [SQLite.flushB, SQLite.quietEnv, h, SQLite.hitsAdd, SQLite.hitsParse]

/-- C1: for every sequence of `insert(record)` calls on a store with empty
pending queues, followed by one `flushB` with no failure and no interleaved
enqueue, the `logs` table afterwards is the old table followed by one new row
per enqueued record in enqueue order, the new rows carry exactly the enqueued
records and have pairwise distinct ids, and the pending-insert queue is empty
after the flush. -/
theorem C1_insert_flush_order (s : SQLite) (rs : List Log) (now : Int)
    (hins : s.inserts = []) (hupd : s.updates = []) :
    (SQLite.flushB (rs.foldl (fun t r => SQLite.insert t (Rec.log r)) s)
        SQLite.quietEnv now).1.db.logs = s.db.logs ++ mkLogRows s.db.nextId rs ∧
    (mkLogRows s.db.nextId rs).map
      (fun row => Log.mk row.module row.key row.value row.created_on row.updated_on) = rs ∧
    (mkLogRows s.db.nextId rs).Pairwise (fun a b => a.id ≠ b.id) ∧
    (SQLite.flushB (rs.foldl (fun t r => SQLite.insert t (Rec.log r)) s)
        SQLite.quietEnv now).1.inserts = [] := by
  rw [foldl_insert_log]
  rw [hins]
  refine ⟨?_, mkLogRows_content _ _, mkLogRows_pairwise_id _ _, ?_⟩
  · rw [flushB_quiet]
    by_cases hrs : rs = []
    · subst hrs
      simp [hupd, mkLogRows]
    · have hmapne : ¬(rs.map Rec.log = []) := by simpa using hrs
      simp [hupd, hmapne, foldl_addObj_log]
  · rw [flushB_quiet]
    by_cases hrs : rs = []
    · subst hrs
      simp [hupd]
    · have hmapne : ¬(rs.map Rec.log = []) := by simpa using hrs
      simp [hupd, hmapne]

/-- Witness for C1: two log records flushed into an empty store. -/
theorem C1_insert_flush_order_witness :
    ((⟨⟨[], [], 0⟩, [], [], 7⟩ : SQLite).inserts = []) ∧
    ((⟨⟨[], [], 0⟩, [], [], 7⟩ : SQLite).updates = []) ∧
    (SQLite.flushB (([⟨"m", "info", "a", 0, 0⟩, ⟨"m", "error", "b", 1, 1⟩] : List Log).foldl
        (fun t r => SQLite.insert t (Rec.log r)) ⟨⟨[], [], 0⟩, [], [], 7⟩)
        SQLite.quietEnv 5).1.inserts = [] :=
  ⟨rfl, rfl, (C1_insert_flush_order ⟨⟨[], [], 0⟩, [], [], 7⟩
      [⟨"m", "info", "a", 0, 0⟩, ⟨"m", "error", "b", 1, 1⟩] 5 rfl rfl).2.2.2⟩

end PMT

namespace PMT

/-- C3: for every store state and every retention value at least 0, `purge`
keeps exactly the log rows whose `updated_on` is not strictly older than
now minus the retention window (so it deletes exactly the strictly older
ones), touches no settings row and no pending queue, commits exactly when
some row qualifies, and leaves the whole state unchanged when it does not
commit. -/
theorem C3_purge_exact (s : SQLite) (now : Int) (hr : 0 ≤ s.retention) :
    (SQLite.purge s now).1.db.logs =
        s.db.logs.filter (fun r => !decide (r.updated_on < now - s.retention)) ∧
    (∀ r : LogRow, r ∈ (SQLite.purge s now).1.db.logs ↔
        r ∈ s.db.logs ∧ ¬(r.updated_on < now - s.retention)) ∧
    (SQLite.purge s now).1.db.settings = s.db.settings ∧
    (SQLite.purge s now).1.inserts = s.inserts ∧
    (SQLite.purge s now).1.updates = s.updates ∧
    ((SQLite.purge s now).2 = true ↔
        ∃ r ∈ s.db.logs, r.updated_on < now - s.retention) ∧
    ((SQLite.purge s now).2 = false → (SQLite.purge s now).1 = s) := by
  have hmem : ∀ r : LogRow,
      (r ∈ s.db.logs.filter (fun x => !decide (x.updated_on < now - s.retention)) ↔
        r ∈ s.db.logs ∧ ¬(r.updated_on < now - s.retention)) := by
    intro r
    simp [List.mem_filter]
  by_cases h : 0 < (s.db.logs.filter
      (fun r => decide (r.updated_on < now - s.retention))).length
  · have hex : ∃ r ∈ s.db.logs, r.updated_on < now - s.retention := by
      rcases List.exists_mem_of_length_pos h with ⟨r, hrmem⟩
      have := (List.mem_filter.mp hrmem)
      exact ⟨r, this.1, by simpa using this.2⟩
    refine ⟨?_, ?_, ?_, ?_, ?_, ?_, ?_⟩
    · simp [SQLite.purge, h]
    · intro r
      rw [show (SQLite.purge s now).1.db.logs =
          s.db.logs.filter (fun x => !decide (x.updated_on < now - s.retention)) by
        simp [SQLite.purge, h]]
      exact hmem r
    · simp [SQLite.purge, h]
    · simp [SQLite.purge, h]
    · simp [SQLite.purge, h]
    · simp only [SQLite.purge, h, if_pos]
      exact ⟨fun _ => hex, fun _ => trivial⟩
    · simp [SQLite.purge, h]
  · have hcount : (s.db.logs.filter
        (fun r => decide (r.updated_on < now - s.retention))).length = 0 := by omega
    have hnil : s.db.logs.filter
        (fun r => decide (r.updated_on < now - s.retention)) = [] :=
      List.length_eq_zero.mp hcount
    have hnone : ∀ r ∈ s.db.logs, ¬(r.updated_on < now - s.retention) := by
      intro r hrmem
      have := List.filter_eq_nil_iff.mp hnil r hrmem
      simpa using this
    have hkeep : s.db.logs.filter
        (fun r => !decide (r.updated_on < now - s.retention)) = s.db.logs := by
      refine List.filter_eq_self.mpr ?_
      intro r hrmem
      simpa using hnone r hrmem
    refine ⟨?_, ?_, ?_, ?_, ?_, ?_, ?_⟩
    · simp [SQLite.purge, h, hkeep]
    · intro r
      rw [show (SQLite.purge s now).1.db.logs = s.db.logs by simp [SQLite.purge, h]]
      exact ⟨fun hm => ⟨hm, hnone r hm⟩, fun hm => hm.1⟩
    · simp [SQLite.purge, h]
    · simp [SQLite.purge, h]
    · simp [SQLite.purge, h]
    · simp only [SQLite.purge, h, if_neg, if_false]
      constructor
      · intro hfalse
        simp at hfalse
      · rintro ⟨r, hrmem, hlt⟩
        exact absurd hlt (hnone r hrmem)
    · intro _
      simp [SQLite.purge, h]

/-- Witness for C3 at a concrete store with one stale and one fresh row. -/
theorem C3_purge_exact_witness :
    (0 : Int) ≤ (⟨⟨[⟨0, "m", "info", "a", 0, 0⟩, ⟨1, "m", "info", "b", 10, 10⟩], [], 2⟩,
        [], [], 7⟩ : SQLite).retention ∧
    (SQLite.purge ⟨⟨[⟨0, "m", "info", "a", 0, 0⟩, ⟨1, "m", "info", "b", 10, 10⟩], [], 2⟩,
        [], [], 7⟩ 10).1.db.settings =
      (⟨⟨[⟨0, "m", "info", "a", 0, 0⟩, ⟨1, "m", "info", "b", 10, 10⟩], [], 2⟩,
        [], [], 7⟩ : SQLite).db.settings :=
  ⟨by decide,
    (C3_purge_exact ⟨⟨[⟨0, "m", "info", "a", 0, 0⟩, ⟨1, "m", "info", "b", 10, 10⟩], [], 2⟩,
        [], [], 7⟩ 10 (by decide)).2.2.1⟩

lemma foldl_parse_log (now : Int) (rs : List Log) :
    ∀ db : DB, (rs.map Rec.log).foldl (fun db r => SQLite.parse db now r) db = db := by
  induction rs with
  | nil => intro db; rfl
  | cons r rs ih =>
    intro db
    simpa [SQLite.parse] using ih db

/-- C10: pending-update entries that are not `Setting` records (here: log
records passed to `update`) are silently discarded by a quiet flush: the
pending-update queue is emptied, the database is completely unchanged (no row
written, none modified), and no error is raised or logged. -/
theorem C10_non_setting_update_discarded (s : SQLite) (rs : List Log) (now : Int)
    (hins : s.inserts = []) (hupd : s.updates = rs.map Rec.log) :
    (SQLite.flushB s SQLite.quietEnv now).1.db = s.db ∧
    (SQLite.flushB s SQLite.quietEnv now).1.updates = [] ∧
    (SQLite.flushB s SQLite.quietEnv now).2 = false := by
  rw [flushB_quiet]
  by_cases hrs : rs = []
  · subst hrs
    simp only [List.map_nil] at hupd
    simp [hins, hupd]
  · have hmapne : ¬(s.updates = []) := by
      rw [hupd]
      simpa using hrs
    simp [hins, hmapne, hupd, foldl_parse_log, hrs]

/-- Witness for C10: one log record sitting in the pending-update queue. -/
theorem C10_non_setting_update_discarded_witness :
    ((⟨⟨[], [], 0⟩, [], [Rec.log ⟨"m", "info", "a", 0, 0⟩], 7⟩ : SQLite).inserts = []) ∧
    ((⟨⟨[], [], 0⟩, [], [Rec.log ⟨"m", "info", "a", 0, 0⟩], 7⟩ : SQLite).updates =
      ([⟨"m", "info", "a", 0, 0⟩] : List Log).map Rec.log) ∧
    (SQLite.flushB ⟨⟨[], [], 0⟩, [], [Rec.log ⟨"m", "info", "a", 0, 0⟩], 7⟩
        SQLite.quietEnv 5).1.db = (⟨⟨[], [], 0⟩, [], [Rec.log ⟨"m", "info", "a", 0, 0⟩], 7⟩ :
        SQLite).db :=
  ⟨rfl, rfl, (C10_non_setting_update_discarded
      ⟨⟨[], [], 0⟩, [], [Rec.log ⟨"m", "info", "a", 0, 0⟩], 7⟩
      [⟨"m", "info", "a", 0, 0⟩] 5 rfl rfl).1⟩

/-- C6: both mutation paths for settings rows preserve the at-most-one-row-
per-key invariant: `parse` applied to any pending object and `Config.sync`
applied to any load result keep the settings keys pairwise distinct, so no
operation ever produces two rows with the same key. -/
theorem C6_settings_keys_unique (db : DB) (now : Int) (data : Rec)
    (rb : Option (List Nat)) (ok : Bool) (digest : List Nat → String)
    (h : uniqueKeys db.settings) :
    uniqueKeys (SQLite.parse db now data).settings ∧
    uniqueKeys (Config.sync db rb ok digest now).2.1.settings := by
  constructor
  · cases data with
    | log _ => exact h
    | setting d => exact upsert_unique now d.key d.value db.nextId db.settings h
  · rcases hload : Config.load rb ok digest with _ | sha
    · simp [Config.sync, hload]
      exact h
    · by_cases hsha : sha = ""
      · simp [Config.sync, hload, hsha]
        exact h
      · rcases hfind : db.settings.find? (fun row => row.key == "config-sha256") with _ | row
        · simp [Config.sync, hload, hsha, hfind]
          exact upsert_unique now _ sha db.nextId db.settings h
        · by_cases hval : sha = row.value
          · simp [Config.sync, hload, hsha, hfind, hval]
            exact h
          · simp [Config.sync, hload, hsha, hfind, hval]
            exact upsert_unique now _ sha db.nextId db.settings h

/-- Witness for C6 at a store holding two settings rows with distinct keys. -/
theorem C6_settings_keys_unique_witness :
    uniqueKeys ([⟨0, "a", "1", 0, 0⟩, ⟨1, "b", "2", 0, 0⟩] :
        List SettingRow) ∧
    uniqueKeys (SQLite.parse ⟨[], [⟨0, "a", "1", 0, 0⟩, ⟨1, "b", "2", 0, 0⟩], 2⟩ 5
        (Rec.setting ⟨"a", "9", 5, 5⟩)).settings :=
  ⟨by decide, (C6_settings_keys_unique ⟨[], [⟨0, "a", "1", 0, 0⟩, ⟨1, "b", "2", 0, 0⟩], 2⟩ 5
      (Rec.setting ⟨"a", "9", 5, 5⟩) none true (fun _ => "h") (by decide)).1⟩

/-- C7: calling `sync` twice with the same read/parse outcome (the file's
bytes, hence its digest, unchanged between the calls) makes the second call
return the no-change result `none`, perform zero store writes and no commit,
and leave the database exactly as the first call left it. -/
theorem C7_sync_unchanged_no_write (db : DB) (rb : Option (List Nat)) (ok : Bool)
    (digest : List Nat → String) (t1 t2 : Int) :
    Config.sync (Config.sync db rb ok digest t1).2.1 rb ok digest t2 =
      (none, (Config.sync db rb ok digest t1).2.1, false) := by
  rcases hload : Config.load rb ok digest with _ | sha
  · simp [Config.sync, hload]
  · by_cases hsha : sha = ""
    · simp [Config.sync, hload, hsha]
    · rcases hfind : db.settings.find? (fun row => row.key == "config-sha256") with _ | row
      · obtain ⟨r, hf, hkey, hval, hupd⟩ :=
          upsert_find t1 "config-sha256" sha db.nextId db.settings
        simp [Config.sync, hload, hsha, hfind, hf, hval]
      · by_cases hval : sha = row.value
        · simp [Config.sync, hload, hsha, hfind, hval]
        · obtain ⟨r, hf, hkey, hrval, hupd⟩ :=
            upsert_find t1 "config-sha256" sha db.nextId db.settings
          simp [Config.sync, hload, hsha, hfind, hval, hf, hrval]

/-- C8: when the configuration file reads and parses successfully and the
stored fingerprint (if any) differs from the digest of the new bytes, `sync`
returns the fresh non-null timestamp, commits synchronously before
returning, and afterwards the `config-sha256` row holds exactly the digest
of the file's raw bytes with `updated_on` equal to that timestamp. -/
theorem C8_sync_change_writes_digest (db : DB) (b : List Nat)
    (digest : List Nat → String) (now : Int)
    (hne : digest b ≠ "")
    (hdiff : ∀ row, db.settings.find? (fun r => r.key == "config-sha256") = some row →
        digest b ≠ row.value) :
    (Config.sync db (some b) true digest now).1 = some now ∧
    (Config.sync db (some b) true digest now).2.2 = true ∧
    ∃ r, (Config.sync db (some b) true digest now).2.1.settings.find?
          (fun row => row.key == "config-sha256") = some r ∧
        r.key = "config-sha256" ∧ r.value = digest b ∧ r.updated_on = now := by
  have hload : Config.load (some b) true digest = some (digest b) := rfl
  rcases hfind : db.settings.find? (fun r => r.key == "config-sha256") with _ | row
  · obtain ⟨r, hf, hkey, hval, hupd⟩ :=
      upsert_find now "config-sha256" (digest b) db.nextId db.settings
    refine ⟨?_, ?_, r, ?_, hkey, hval, hupd⟩ <;>
      simp [Config.sync, hload, hne, hfind, hf]
  · have hvalne : ¬(digest b = row.value) := hdiff row hfind
    obtain ⟨r, hf, hkey, hval, hupd⟩ :=
      upsert_find now "config-sha256" (digest b) db.nextId db.settings
    refine ⟨?_, ?_, r, ?_, hkey, hval, hupd⟩ <;>
      simp [Config.sync, hload, hne, hfind, hvalne, hf]

/-- Witness for C8: an empty settings table and a fresh digest. -/
theorem C8_sync_change_writes_digest_witness :
    ((fun _ : List Nat => "d1") [0, 1] ≠ "") ∧
    (Config.sync ⟨[], [], 0⟩ (some [0, 1]) true (fun _ => "d1") 9).1 = some 9 :=
  ⟨by decide, (C8_sync_change_writes_digest ⟨[], [], 0⟩ [0, 1] (fun _ => "d1") 9
      (by decide) (by intro row hrow; simp at hrow)).1⟩

/-- C9: `emit` never raises: when the message formats successfully it
enqueues via `insert` exactly one log record built from the event — module
name, lower-cased severity level as key, formatted message as value, both
timestamps the event's own creation time — without touching the secondary
channel; when message construction fails it leaves the store untouched and
reports through the secondary logging channel instead of propagating. -/
theorem C9_emit_total (s : SQLite) (e : LogEvent) :
    (∀ msg, e.message = Except.ok msg →
      SQLiteHandler.emit s e =
        ({ s with inserts := s.inserts ++ [Rec.log
            { module := e.module, key := lowercase e.levelname, value := msg,
              created_on := e.created, updated_on := e.created }] }, false)) ∧
    (∀ err, e.message = Except.error err →
      SQLiteHandler.emit s e = (s, true)) := by
  constructor
  · intro msg hmsg
    simp [SQLiteHandler.emit, hmsg, SQLite.insert]
  · intro err hmsg
    simp [SQLiteHandler.emit, hmsg]

/-- Witness for C9: an INFO event whose message formats successfully. -/
theorem C9_emit_total_witness :
    (({ module := "m", levelname := "INFO", message := Except.ok "hi", created := 4 } :
        LogEvent).message = Except.ok "hi") ∧
    SQLiteHandler.emit ⟨⟨[], [], 0⟩, [], [], 7⟩
        { module := "m", levelname := "INFO", message := Except.ok "hi", created := 4 } =
      (⟨⟨[], [], 0⟩, [Rec.log ⟨"m", "info", "hi", 4, 4⟩], [], 7⟩, false) :=
  ⟨rfl, by
    rw [(C9_emit_total ⟨⟨[], [], 0⟩, [], [], 7⟩
        { module := "m", levelname := "INFO", message := Except.ok "hi", created := 4 }).1
      "hi" rfl]
    decide⟩

end PMT

namespace PMT

lemma fold_parse_setting_count (now : Int) (k : String) :
    ∀ (us : List Setting) (db : DB), (∀ u ∈ us, u.key = k) →
      countKey db.settings k ≤ 1 →
      countKey ((us.map Rec.setting).foldl
        (fun d r => SQLite.parse d now r) db).settings k ≤ 1 := by
  intro us
  induction us with
  | nil =>
    intro db _ h
    simpa using h
  | cons u us ih =>
    intro db hk h
    simp only [List.map_cons, List.foldl_cons]
    have hu : u.key = k := hk u (by simp)
    have h1 : countKey (SQLite.parse db now (Rec.setting u)).settings k = 1 := by
      have := (upsert_result now k u.value db.nextId db.settings h).1
      simpa [SQLite.parse, hu] using this
    exact ih _ (fun v hv => hk v (by simp [hv])) (le_of_eq h1)

/-- C2: for every nonempty sequence of `update(record)` calls whose settings
records all target the same key, enqueued on a store with empty queues and
drained by one quiet `flushB`: exactly one settings row for that key exists
afterwards, its value is the value of the last enqueued update (updates
applied in enqueue order, last write wins), its `updated_on` is the flush
time, which is at least any prior row's `updated_on` when the clock did not
go backwards, and the pending-update queue is empty after the flush. -/
theorem C2_update_dedup_last_wins (s : SQLite) (k : String) (us : List Setting)
    (now : Int) (hne : us ≠ []) (hk : ∀ u ∈ us, u.key = k)
    (hins : s.inserts = []) (hupd : s.updates = [])
    (hcount : countKey s.db.settings k ≤ 1)
    (hclock : ∀ row ∈ s.db.settings, row.key = k → row.updated_on ≤ now) :
    countKey (SQLite.flushB (us.foldl (fun t u => SQLite.update t (Rec.setting u)) s)
        SQLite.quietEnv now).1.db.settings k = 1 ∧
    (∀ r ∈ (SQLite.flushB (us.foldl (fun t u => SQLite.update t (Rec.setting u)) s)
        SQLite.quietEnv now).1.db.settings, r.key = k →
      r.value = (us.getLast hne).value ∧ r.updated_on = now ∧
      ∀ prior ∈ s.db.settings, prior.key = k → prior.updated_on ≤ r.updated_on) ∧
    (SQLite.flushB (us.foldl (fun t u => SQLite.update t (Rec.setting u)) s)
        SQLite.quietEnv now).1.updates = [] := by
  rw [foldl_update_setting, hupd, flushB_quiet]
  have husne : ¬(us.map Rec.setting = []) := by simpa using hne
  simp only [List.nil_append, hins, husne, and_false, true_and, if_false, List.foldl_nil]
  have hdecomp : us.dropLast ++ [us.getLast hne] = us := List.dropLast_append_getLast hne
  have hfoldsplit :
      (us.map Rec.setting).foldl (fun d r => SQLite.parse d now r) s.db =
        SQLite.parse ((us.dropLast.map Rec.setting).foldl
            (fun d r => SQLite.parse d now r) s.db)
          now (Rec.setting (us.getLast hne)) := by
    conv_lhs => rw [← hdecomp]
    simp [List.foldl_append]
  have hmidcount : countKey ((us.dropLast.map Rec.setting).foldl
      (fun d r => SQLite.parse d now r) s.db).settings k ≤ 1 :=
    fold_parse_setting_count now k us.dropLast s.db
      (fun u hu => hk u (List.mem_of_mem_dropLast hu)) hcount
  have hlastkey : (us.getLast hne).key = k := hk _ (List.getLast_mem hne)
  have hfinal := upsert_result now k (us.getLast hne).value
    ((us.dropLast.map Rec.setting).foldl (fun d r => SQLite.parse d now r) s.db).nextId
    ((us.dropLast.map Rec.setting).foldl (fun d r => SQLite.parse d now r) s.db).settings
    hmidcount
  refine ⟨?_, ?_, ?_⟩
  · rw [hfoldsplit]
    simpa [SQLite.parse, hlastkey] using hfinal.1
  · intro r hr hrk
    rw [hfoldsplit] at hr
    simp only [SQLite.parse, hlastkey] at hr
    obtain ⟨hval, hupdon⟩ := hfinal.2 r hr hrk
    exact ⟨hval, hupdon, fun prior hp hpk => by
      rw [hupdon]
      exact hclock prior hp hpk⟩
  · simp

/-- Witness for C2: two updates of the same key flushed into an empty store. -/
theorem C2_update_dedup_last_wins_witness :
    (([⟨"foo", "1", 0, 0⟩, ⟨"foo", "2", 1, 1⟩] : List Setting) ≠ []) ∧
    countKey (SQLite.flushB (([⟨"foo", "1", 0, 0⟩, ⟨"foo", "2", 1, 1⟩] : List Setting).foldl
        (fun t u => SQLite.update t (Rec.setting u)) ⟨⟨[], [], 0⟩, [], [], 7⟩)
        SQLite.quietEnv 5).1.db.settings "foo" = 1 :=
  ⟨by decide, (C2_update_dedup_last_wins ⟨⟨[], [], 0⟩, [], [], 7⟩ "foo"
      [⟨"foo", "1", 0, 0⟩, ⟨"foo", "2", 1, 1⟩] 5 (by decide)
      (by decide)
      rfl rfl (by decide) (by intro row hrow; simp at hrow)).1⟩

end PMT

namespace PMT

/-- C4 counterexample: a record enqueued after the snapshot was taken but
before `inserts.clear()` ran is removed from the pending-insert queue by the
flush even though it was not in the snapshot and is never written: the queue
is empty afterwards and the table holds only the snapshot row, refuting the
claim that such an entry remains in its queue for the next cycle. -/
theorem C4_counterexample_snapshot_drain :
    (SQLite.flushB ⟨⟨[], [], 0⟩, [Rec.log ⟨"m", "info", "a", 0, 0⟩], [], 7⟩
        ⟨none, [Rec.log ⟨"m", "info", "b", 1, 1⟩], [], [], []⟩ 5).1.inserts = [] ∧
    (SQLite.flushB ⟨⟨[], [], 0⟩, [Rec.log ⟨"m", "info", "a", 0, 0⟩], [], 7⟩
        ⟨none, [Rec.log ⟨"m", "info", "b", 1, 1⟩], [], [], []⟩ 5).1.db.logs =
      [⟨0, "m", "info", "a", 0, 0⟩] := by
  decide

/-- C4 amended: in a failure-free flush with a nonempty snapshot, each
`clear()` removes everything appended to its deque up to the moment it runs —
the snapshot plus any entry enqueued between the snapshot and that clear, the
latter being dropped without ever being written — so only entries enqueued
after the corresponding clear remain queued for the next cycle, and the rows
written are exactly those of the snapshot. -/
theorem C4_amended_clear_time_drain (s : SQLite) (env : SQLite.FlushEnv) (now : Int)
    (hfail : env.fail = none) (hwork : ¬(s.inserts = [] ∧ s.updates = [])) :
    (SQLite.flushB s env now).1.inserts = env.insLate ∧
    (SQLite.flushB s env now).1.updates = env.updLate ∧
    (SQLite.flushB s env now).1.db =
      s.updates.foldl (fun db r => SQLite.parse db now r)
        (s.inserts.foldl SQLite.addObj s.db) ∧
    (SQLite.flushB s env now).2 = false := by
  simp [SQLite.flushB, hwork, hfail, SQLite.hitsAdd, SQLite.hitsParse]

/-- Witness for the amended C4 at a concrete store and interleaving. -/
theorem C4_amended_clear_time_drain_witness :
    ((⟨none, [Rec.log ⟨"m", "info", "b", 1, 1⟩], [Rec.log ⟨"m", "info", "c", 2, 2⟩],
        [], []⟩ : SQLite.FlushEnv).fail = none) ∧
    ¬((⟨⟨[], [], 0⟩, [Rec.log ⟨"m", "info", "a", 0, 0⟩], [], 7⟩ : SQLite).inserts = [] ∧
      (⟨⟨[], [], 0⟩, [Rec.log ⟨"m", "info", "a", 0, 0⟩], [], 7⟩ : SQLite).updates = []) ∧
    (SQLite.flushB ⟨⟨[], [], 0⟩, [Rec.log ⟨"m", "info", "a", 0, 0⟩], [], 7⟩
        ⟨none, [Rec.log ⟨"m", "info", "b", 1, 1⟩], [Rec.log ⟨"m", "info", "c", 2, 2⟩],
          [], []⟩ 5).1.inserts = [Rec.log ⟨"m", "info", "c", 2, 2⟩] :=
  ⟨rfl, by decide,
    (C4_amended_clear_time_drain ⟨⟨[], [], 0⟩, [Rec.log ⟨"m", "info", "a", 0, 0⟩], [], 7⟩
      ⟨none, [Rec.log ⟨"m", "info", "b", 1, 1⟩], [Rec.log ⟨"m", "info", "c", 2, 2⟩],
        [], []⟩ 5 rfl (by decide)).1⟩

/-- C5 counterexample: when the failure strikes while adding the first
snapshot insert, neither `clear()` has run yet, so the snapshot record is
still in the pending-insert queue after the failed flush — refuting the
claim that every snapshot record is dropped from the queues regardless of
commit outcome. -/
theorem C5_counterexample_snapshot_kept :
    (SQLite.flushB ⟨⟨[], [], 0⟩, [Rec.log ⟨"m", "info", "a", 0, 0⟩], [], 7⟩
        ⟨some (SQLite.FailPoint.addInsert 0), [], [], [], []⟩ 5).1.inserts =
      [Rec.log ⟨"m", "info", "a", 0, 0⟩] ∧
    (SQLite.flushB ⟨⟨[], [], 0⟩, [Rec.log ⟨"m", "info", "a", 0, 0⟩], [], 7⟩
        ⟨some (SQLite.FailPoint.addInsert 0), [], [], [], []⟩ 5).2 = true := by
  decide

/-- C5 amended: any failure inside the flush transaction leaves the database
unchanged (full rollback) and is only logged, never raised to the caller;
but the snapshot is dropped from a queue only when that queue's `clear()`
had already run when the exception struck: a failure while adding an insert
leaves both queues intact, a failure while applying an update drops the
insert snapshot but leaves the update queue intact, and a commit failure
drops both snapshots. -/
theorem C5_amended_failure_rollback (s : SQLite) (now : Int) (i j : Nat) :
    (i < s.inserts.length →
      SQLite.flushB s ⟨some (SQLite.FailPoint.addInsert i), [], [], [], []⟩ now =
        (s, true)) ∧
    (j < s.updates.length →
      SQLite.flushB s ⟨some (SQLite.FailPoint.applyUpdate j), [], [], [], []⟩ now =
        ({ s with inserts := [] }, true)) ∧
    (¬(s.inserts = [] ∧ s.updates = []) →
      SQLite.flushB s ⟨some SQLite.FailPoint.commit, [], [], [], []⟩ now =
        ({ s with inserts := [], updates := [] }, true)) := by
  refine ⟨?_, ?_, ?_⟩
  · intro hi
    have hne : ¬(s.inserts = [] ∧ s.updates = []) := by
      rintro ⟨h1, _⟩
      rw [h1] at hi
      simp at hi
    rcases s with ⟨db, ins, upd, ret⟩
    simp only at hi
    simp [SQLite.flushB, hne, SQLite.hitsAdd, hi]
  · intro hj
    have hne : ¬(s.inserts = [] ∧ s.updates = []) := by
      rintro ⟨_, h2⟩
      rw [h2] at hj
      simp at hj
    rcases s with ⟨db, ins, upd, ret⟩
    simp only at hj
    simp [SQLite.flushB, hne, SQLite.hitsAdd, SQLite.hitsParse, hj]
  · intro hne
    rcases s with ⟨db, ins, upd, ret⟩
    simp [SQLite.flushB, hne, SQLite.hitsAdd, SQLite.hitsParse]

/-- Witness for the amended C5: failure while adding the only snapshot
insert leaves the queue intact. -/
theorem C5_amended_failure_rollback_witness :
    (0 < (⟨⟨[], [], 0⟩, [Rec.log ⟨"m", "info", "a", 0, 0⟩], [], 7⟩ :
        SQLite).inserts.length) ∧
    SQLite.flushB ⟨⟨[], [], 0⟩, [Rec.log ⟨"m", "info", "a", 0, 0⟩], [], 7⟩
        ⟨some (SQLite.FailPoint.addInsert 0), [], [], [], []⟩ 5 =
      (⟨⟨[], [], 0⟩, [Rec.log ⟨"m", "info", "a", 0, 0⟩], [], 7⟩, true) :=
  ⟨by decide,
    (C5_amended_failure_rollback ⟨⟨[], [], 0⟩, [Rec.log ⟨"m", "info", "a", 0, 0⟩], [], 7⟩
      5 0 0).1 (by decide)⟩

end PMT
